import Mathlib

/-!
Verification development for the knowledge-graph server in `src/main.py`.

The Python data layer is shallowly embedded: pydantic models become Lean
structures, the JSON document handled by `json.loads` / `model_dump_json`
becomes an inductive `Json` value, Python exceptions become `Except.error`,
and `datetime.now().isoformat()` becomes an explicit `now : String`
parameter threaded through each operation.  Each endpoint's in-memory
transformation (between `read_graph_file` and `save_graph`) is modelled as a
pure function on `KnowledgeGraph`.
-/

namespace NKG

/-- JSON value as produced by `json.loads`: null, booleans, numbers, strings,
arrays and objects.  Numbers are modelled as integers (no claim depends on a
numeric payload).  Objects are association lists with string keys; since
`json.loads` keeps the last binding of a duplicated key, lookups below take
the last binding. -/
inductive Json where
  | null : Json
  | bool (b : Bool) : Json
  | num (n : Int) : Json
  | str (s : String) : Json
  | arr (elems : List Json) : Json
  | obj (fields : List (String × Json)) : Json

/-- Lookup in a Python dict (last binding of a key wins, mirroring how
`json.loads` builds the dict). -/
def pyLookup : List (String × Json) → String → Option Json
  | [], _ => none
  | (k, v) :: fs, key =>
    match pyLookup fs key with
    | some w => some w
    | none => if k = key then some v else none

/-- Python `d.get(k)`: a missing key yields `None`, which coincides with a
stored JSON `null` (Python cannot tell them apart through one-argument
`get`), so both are collapsed to `Json.null`. -/
def pyGet (fs : List (String × Json)) (k : String) : Json :=
  (pyLookup fs k).getD Json.null

/-- Python `d.get(k, default)`: the default is used only when the key is
absent; a stored `null` is returned as `Json.null`. -/
def pyGetD (fs : List (String × Json)) (k : String) (dflt : Json) : Json :=
  (pyLookup fs k).getD dflt

/-- Python `k in d` for a dict. -/
def containsKey (fs : List (String × Json)) (k : String) : Bool :=
  (pyLookup fs k).isSome

/-- Python truthiness of a decoded JSON value. -/
def jsonTruthy : Json → Bool
  | .null => false
  | .bool b => b
  | .num n => n != 0
  | .str s => s != ""
  | .arr xs => !xs.isEmpty
  | .obj fs => !fs.isEmpty

/-- Pydantic validation of a `str` field: any non-string value (including a
missing field collapsed to `null`) raises a ValidationError. -/
def asStr : Json → Except String String
  | .str s => .ok s
  | _ => .error "ValidationError: expected a string"

/-- Python `for x in v`: lists iterate their elements, strings iterate their
characters (as one-character strings), dicts iterate their keys; every other
value raises `TypeError`. -/
def pyIter : Json → Except String (List Json)
  | .arr xs => .ok xs
  | .str s => .ok (s.data.map (fun c => Json.str (String.mk [c])))
  | .obj fs => .ok (fs.map (fun p => Json.str p.1))
  | _ => .error "TypeError: object is not iterable"

/-- Python `==` between a decoded JSON value and a string: true only for the
equal string (a string never equals a number, boolean, null or container). -/
def jsonEqStr : Json → String → Bool
  | .str t, s => t == s
  | _, _ => false

/-- True when the character list `needle` occurs at the start of `hay`. -/
def strStarts : List Char → List Char → Bool
  | [], _ => true
  | _ :: _, [] => false
  | a :: as, b :: bs => a == b && strStarts as bs

/-- True when the character list `needle` occurs contiguously inside `hay`. -/
def hasSub (needle : List Char) : List Char → Bool
  | [] => needle.isEmpty
  | c :: rest => strStarts needle (c :: rest) || hasSub needle rest

/-- Python `needle in hay` for strings (substring containment). -/
def pyInStr (needle hay : String) : Bool :=
  hasSub needle.data hay.data

/-- Python `str.lower()`, modelled characterwise (identical to CPython on
ASCII data). -/
def pyLower (s : String) : String :=
  ⟨s.data.map Char.toLower⟩

/-- Python `x in container` for a decoded JSON container, where `x` is a
string: list membership, substring of a string, key of a dict; other values
raise `TypeError`. -/
def pyContains : Json → String → Except String Bool
  | .arr xs, s => .ok (xs.any (fun v => jsonEqStr v s))
  | .str t, s => .ok (pyInStr s t)
  | .obj fs, s => .ok (fs.any (fun p => p.1 == s))
  | _, _ => .error "TypeError: argument is not a container"

/-- Observation pydantic model: `content` and an immutable `timestamp`. -/
structure Observation where
  content : String
  timestamp : String
deriving DecidableEq

/-- Entity pydantic model: unique `name`, `entityType`, creation and
modification provenance, and an ordered list of observations. -/
structure Entity where
  name : String
  entityType : String
  created_at : String
  last_modified : String
  observations : List Observation
deriving DecidableEq

/-- Relation pydantic model: directed typed edge with creation provenance;
`from_` carries the JSON alias `from`. -/
structure Relation where
  from_ : String
  to_ : String
  relationType : String
  created_at : String
deriving DecidableEq

/-- The in-memory knowledge graph: a list of entities and relations. -/
structure KnowledgeGraph where
  entities : List Entity
  relations : List Relation
deriving DecidableEq

/-- Serialization of one observation by `model_dump_json`. -/
def obsToJson (o : Observation) : Json :=
  .obj [("content", .str o.content), ("timestamp", .str o.timestamp)]

/-- Serialization of one entity by `model_dump_json` (field order of the
pydantic model). -/
def entityToJson (e : Entity) : Json :=
  .obj [("name", .str e.name), ("entityType", .str e.entityType),
        ("created_at", .str e.created_at), ("last_modified", .str e.last_modified),
        ("observations", .arr (e.observations.map obsToJson))]

/-- Serialization of one relation by `model_dump_json(by_alias=True)`:
`from_` is written under its alias `from`. -/
def relationToJson (r : Relation) : Json :=
  .obj [("from", .str r.from_), ("to", .str r.to_),
        ("relationType", .str r.relationType), ("created_at", .str r.created_at)]

/-- `save_graph`: the JSON document written to the memory file
(`graph.model_dump_json(by_alias=True)`). -/
def save_graph (g : KnowledgeGraph) : Json :=
  .obj [("entities", .arr (g.entities.map entityToJson)),
        ("relations", .arr (g.relations.map relationToJson))]

/-- One element of an entity's stored `observations` list: a bare string is
upgraded to an `Observation` stamped with the entity's creation time
(`Observation(content=o, timestamp=creation_time)`); a dict goes through
`Observation(**o)`; anything else raises `TypeError`. -/
def parseObservation (creationTime : Json) : Json → Except String Observation
  | .str s => do
    let t ← asStr creationTime
    .ok ⟨s, t⟩
  | .obj fs => do
    let c ← asStr (pyGet fs "content")
    let t ← asStr (pyGet fs "timestamp")
    .ok ⟨c, t⟩
  | _ => .error "TypeError: argument after ** must be a mapping"

/-- One element of the stored `entities` list, as decoded by
`read_graph_file`: `creation_time` is the first truthy value among
`created_at`, `last_modified` and `now`; observations are decoded with
`parseObservation`; then `Entity(...)` is validated, with
`last_modified = e.get("last_modified", now)`.  A non-dict element raises
(`.get` on a non-dict), as does a missing `name`/`entityType` key or a
non-string field value. -/
def parseEntity (now : String) : Json → Except String Entity
  | .obj fs => do
    let ct : Json :=
      if jsonTruthy (pyGet fs "created_at") then pyGet fs "created_at"
      else if jsonTruthy (pyGet fs "last_modified") then pyGet fs "last_modified"
      else .str now
    let obsJ ← pyIter (pyGetD fs "observations" (.arr []))
    let obs ← obsJ.mapM (parseObservation ct)
    let nv ← match pyLookup fs "name" with
      | some v => Except.ok v
      | none => Except.error "KeyError: name"
    let tv ← match pyLookup fs "entityType" with
      | some v => Except.ok v
      | none => Except.error "KeyError: entityType"
    let name ← asStr nv
    let ty ← asStr tv
    let ca ← asStr ct
    let lm ← asStr (pyGetD fs "last_modified" (.str now))
    .ok ⟨name, ty, ca, lm, obs⟩
  | _ => .error "AttributeError: value has no attribute get"

/-- One element of the stored `relations` list: a missing `created_at` is
stamped with `now`, then `Relation(**r)` is validated (the `from` alias is
required).  A non-dict element raises. -/
def parseRelation (now : String) : Json → Except String Relation
  | .obj fs =>
    let fs' := if containsKey fs "created_at" then fs
               else fs ++ [("created_at", .str now)]
    do
    let f ← asStr (pyGet fs' "from")
    let t ← asStr (pyGet fs' "to")
    let ty ← asStr (pyGet fs' "relationType")
    let ca ← asStr (pyGet fs' "created_at")
    .ok ⟨f, t, ty, ca⟩
  | _ => .error "TypeError: relation entry is not a mapping"

/-- State of the memory file: absent, or present with some content. -/
inductive FileContent where
  | blank : FileContent
  | invalid : FileContent
  | json (data : Json) : FileContent

/-- Whether `MEMORY_FILE_PATH` exists, and what it holds: `blank` is content
that strips to the empty string, `invalid` is non-blank content rejected by
`json.loads` (raising `JSONDecodeError`), `json data` is content that decodes
to the JSON value `data`. -/
inductive FileState where
  | absent : FileState
  | present (content : FileContent) : FileState

/-- `read_graph_file`: returns the empty graph for an absent file, blank
content, or a `JSONDecodeError` (the only exception caught); otherwise
decodes `data.get("entities", [])` then `data.get("relations", [])`.  Any
other exception (modelled as `Except.error`) escapes to the caller. -/
def read_graph_file (file : FileState) (now : String) : Except String KnowledgeGraph :=
  match file with
  | .absent => .ok ⟨[], []⟩
  | .present .blank => .ok ⟨[], []⟩
  | .present .invalid => .ok ⟨[], []⟩
  | .present (.json data) =>
    match data with
    | .obj fs => do
      let entsJ ← pyIter (pyGetD fs "entities" (.arr []))
      let ents ← entsJ.mapM (parseEntity now)
      let relsJ ← pyIter (pyGetD fs "relations" (.arr []))
      let rels ← relsJ.mapM (parseRelation now)
      .ok ⟨ents, rels⟩
    | _ => .error "AttributeError: value has no attribute get"

/-- One item of an `add_observations` request (validated by FastAPI). -/
structure ObservationItem where
  entityName : String
  contents : List String

/-- Replace the first entity satisfying `p` by its image under `f`; the rest
of the list is unchanged.  This models `next((e for e in graph.entities if
...), None)` followed by in-place mutation of the found object. -/
def updateFirst (p : Entity → Bool) (f : Entity → Entity) : List Entity → List Entity
  | [] => []
  | e :: rest => if p e then f e :: rest else e :: updateFirst p f rest

/-- The inner loop of `add_observations` for one entity: walk the requested
contents, appending `Observation(content_str, now)` whenever no observation
with that exact content is present yet (checks include observations appended
earlier in the same call); also count the appends. -/
def addLoop (now : String) : List Observation → List String → List Observation × Nat
  | obs, [] => (obs, 0)
  | obs, c :: rest =>
    if obs.any (fun o => o.content == c) then addLoop now obs rest
    else
      let r := addLoop now (obs ++ [⟨c, now⟩]) rest
      (r.1, r.2 + 1)

/-- Effect of one `add_observations` item on its matched entity: append the
fresh contents and touch `last_modified` exactly when the append count is
positive. -/
def applyContents (cs : List String) (now : String) (e : Entity) : Entity :=
  let r := addLoop now e.observations cs
  { e with observations := r.1,
           last_modified := if r.2 > 0 then now else e.last_modified }

/-- `add_observations`: per item, the first entity whose name equals
`item.entityName` receives the item's contents (an unmatched name leaves the
graph untouched).  The human-readable result messages are not modelled. -/
def add_observations (g : KnowledgeGraph) (items : List ObservationItem) (now : String) : KnowledgeGraph :=
  let step := fun (ents : List Entity) (it : ObservationItem) =>
    updateFirst (fun e => e.name == it.entityName) (applyContents it.contents now) ents
  { g with entities := items.foldl step g.entities }

/-- Python `name not in existing_names` specialised to the decoded JSON
`name` against a set of strings: only an equal string is a member. -/
def jsonNameMem (v : Json) (names : List String) : Bool :=
  match v with
  | .str s => names.contains s
  | _ => false

/-- Construction of a new entity from one raw `create_entities` item:
`Entity(name=item["name"], entityType=item.get("entityType", "General"),
created_at=now, last_modified=now)` (validated), then the item's
`observations`, when present, are iterated and each string element is
appended stamped `now` (non-string elements are silently skipped). -/
def entityFromItem (now : String) (item : List (String × Json)) : Except String Entity := do
  let name ← asStr (pyGet item "name")
  let ty ← asStr (pyGetD item "entityType" (.str "General"))
  let obs ←
    if containsKey item "observations" then do
      let l ← pyIter (pyGet item "observations")
      Except.ok (l.foldl (fun acc o =>
        match o with
        | Json.str s => acc ++ [(⟨s, now⟩ : Observation)]
        | _ => acc) ([] : List Observation))
    else Except.ok []
  .ok ⟨name, ty, now, now, obs⟩

/-- The loop of `create_entities`: an item is inserted only when its `name`
is truthy and not already in `existing_names`; the inserted name is added to
`existing_names`. -/
def create_entities_loop (now : String) :
    List (List (String × Json)) → List Entity → List String → Except String (List Entity)
  | [], ents, _ => .ok ents
  | item :: rest, ents, existing =>
    if jsonTruthy (pyGet item "name") && !(jsonNameMem (pyGet item "name") existing) then do
      let e ← entityFromItem now item
      create_entities_loop now rest (ents ++ [e]) (existing ++ [e.name])
    else create_entities_loop now rest ents existing

/-- `create_entities`: the in-memory transformation between load and save;
`existing_names` starts as the set of current entity names. -/
def create_entities (g : KnowledgeGraph) (items : List (List (String × Json))) (now : String) :
    Except String KnowledgeGraph := do
  let ents ← create_entities_loop now items g.entities (g.entities.map Entity.name)
  .ok { g with entities := ents }

/-- Identity triple of a relation. -/
def tripleOf (r : Relation) : String × String × String :=
  (r.from_, r.to_, r.relationType)

/-- The loop of `create_relations`: a relation whose triple is already in
`existing` is skipped; otherwise a falsy (empty) `created_at` is replaced by
`now` and the relation is appended, its triple joining `existing`. -/
def create_relations_loop (now : String) :
    List Relation → List Relation → List (String × String × String) → List Relation
  | [], acc, _ => acc
  | r :: rest, acc, existing =>
    if existing.contains (tripleOf r) then create_relations_loop now rest acc existing
    else
      let r' := if r.created_at == "" then { r with created_at := now } else r
      create_relations_loop now rest (acc ++ [r']) (existing ++ [tripleOf r'])

/-- `create_relations`: the in-memory transformation between load and save. -/
def create_relations (g : KnowledgeGraph) (rels : List Relation) (now : String) : KnowledgeGraph :=
  { g with relations := create_relations_loop now rels g.relations (g.relations.map tripleOf) }

/-- `delete_entities`: drop entities whose name is listed, then drop every
relation with a listed name on either side. -/
def delete_entities (g : KnowledgeGraph) (names : List String) : KnowledgeGraph :=
  { entities := g.entities.filter (fun e => !(names.contains e.name)),
    relations := g.relations.filter
      (fun r => !(names.contains r.from_) && !(names.contains r.to_)) }

/-- The list comprehension of `delete_observations`: keep the observations
whose content is not in `to_delete`, where the membership test follows
Python `in` on the raw JSON value and may raise. -/
def pyFilterObs (toDelete : Json) : List Observation → Except String (List Observation)
  | [] => .ok []
  | o :: rest => do
    let b ← pyContains toDelete o.content
    let r ← pyFilterObs toDelete rest
    .ok (if b then r else o :: r)

/-- Effect of one `delete_observations` item on its matched entity: filter
the observations against `item.get("observations", [])` and always stamp
`last_modified = now`. -/
def deleteFromEntity (item : List (String × Json)) (now : String) (e : Entity) : Except String Entity := do
  let obs ← pyFilterObs (pyGetD item "observations" (Json.arr [])) e.observations
  .ok { e with observations := obs, last_modified := now }

/-- Fallible variant of `updateFirst` for `delete_observations`, whose
per-entity update can raise. -/
def updateFirstE (p : Entity → Bool) (f : Entity → Except String Entity) :
    List Entity → Except String (List Entity)
  | [] => .ok []
  | e :: rest =>
    if p e then do
      let e' ← f e
      .ok (e' :: rest)
    else do
      let rest' ← updateFirstE p f rest
      .ok (e :: rest')

/-- `delete_observations`: per raw deletion item, the first entity whose
name equals the item's `entityName` has the listed contents removed and is
touched; items matching no entity are skipped. -/
def delete_observations (g : KnowledgeGraph) (items : List (List (String × Json))) (now : String) :
    Except String KnowledgeGraph := do
  let ents ← items.foldlM (fun ents item =>
    updateFirstE (fun e => jsonEqStr (pyGet item "entityName") e.name)
      (deleteFromEntity item now) ents) g.entities
  .ok { g with entities := ents }

/-- The match predicate of `search_nodes` (the query is already lowercased):
case-insensitive substring against the name, the type, or any observation's
content. -/
def entityMatches (q : String) (e : Entity) : Bool :=
  pyInStr q (pyLower e.name) || pyInStr q (pyLower e.entityType)
    || e.observations.any (fun o => pyInStr q (pyLower o.content))

/-- `search_nodes`: matched entities, plus only the relations with both
endpoints among the matched names. -/
def search_nodes (g : KnowledgeGraph) (query : String) : KnowledgeGraph :=
  let q := pyLower query
  let matched := g.entities.filter (entityMatches q)
  let found := matched.map Entity.name
  { entities := matched,
    relations := g.relations.filter
      (fun r => found.contains r.from_ && found.contains r.to_) }

/-- `open_nodes`: entities with a requested name, plus every relation with
either endpoint among the found names. -/
def open_nodes (g : KnowledgeGraph) (names : List String) : KnowledgeGraph :=
  let ents := g.entities.filter (fun e => names.contains e.name)
  let found := ents.map Entity.name
  { entities := ents,
    relations := g.relations.filter
      (fun r => found.contains r.from_ || found.contains r.to_) }

/-- A `retrieve_context` request (validated by FastAPI; `top_k` defaults to
3 at the transport layer). -/
structure RetrieveContextRequest where
  canonical_entity : String
  query_thought : String
  top_k : Int

/-- One entry of a successful `retrieve_context` result list.  Engine scores
are modelled as rationals (the binary floating-point representation is
abstracted away). -/
structure ContextResult where
  content : String
  score : ℚ
  created_at : String
deriving DecidableEq

/-- Shape of the `retrieve_context` response dict: the engine-unavailable
error, the empty "no memories" result, a ranked result list, or the caught
reranking failure. -/
inductive RetrieveResponse where
  | engineNotLoaded (msg : String) : RetrieveResponse
  | noMemories (tag : String) (message : String) : RetrieveResponse
  | results (tag : String) (query : String) (items : List ContextResult) : RetrieveResponse
  | rerankFailed (msg : String) : RetrieveResponse
deriving DecidableEq

/-- Contract of `wl.rank(query, docs, sort=True)`: a list of scored
documents sorted by descending relevance, or a raised exception. -/
abbrev RankEngine := String → List String → Except String (List (String × ℚ))

/-- Candidate observations of `retrieve_context`: the observations, in
order, of every entity whose lowercased `entityType` contains the lowercased
canonical tag as a substring. -/
def candidateObs (g : KnowledgeGraph) (tag : String) : List Observation :=
  (g.entities.filter (fun e => pyInStr tag (pyLower e.entityType))).foldr
    (fun e acc => e.observations ++ acc) []

/-- Round-half-to-even of a rational to an integer (Python `round`). -/
def roundHalfEven (q : ℚ) : ℤ :=
  let f := ⌊q⌋
  let r := q - f
  if r < 1 / 2 then f
  else if 1 / 2 < r then f + 1
  else if f % 2 = 0 then f else f + 1

/-- Python `round(x, 4)` on the rational model of the score. -/
def round4 (q : ℚ) : ℚ :=
  (roundHalfEven (q * 10000) : ℚ) / 10000

/-- Python slice `l[:k]` for an `int` bound `k` (a negative bound counts
from the end, clipped at zero). -/
def pyTake (k : Int) (l : List (String × ℚ)) : List (String × ℚ) :=
  if 0 ≤ k then l.take k.toNat else l.take (l.length - (-k).toNat)

/-- `retrieve_context`: soft-fail when the engine handle is unset; collect
candidate observation contents from entities whose type contains the tag;
report "No memories found." when there are none; otherwise rank, take the
first `top_k`, and map each text back to the most recently encountered
observation with that content (`doc_map`); a raised ranking failure is
caught and returned as an error field. -/
def retrieve_context (wl : Option RankEngine) (g : KnowledgeGraph)
    (req : RetrieveContextRequest) : RetrieveResponse :=
  match wl with
  | none => .engineNotLoaded "WordLlama engine not loaded."
  | some engine =>
    let tag := pyLower req.canonical_entity
    let cands := candidateObs g tag
    let docs := cands.map Observation.content
    if docs.isEmpty then .noMemories req.canonical_entity "No memories found."
    else
      match engine req.query_thought docs with
      | .error e => .rerankFailed ("Reranking failed: " ++ e)
      | .ok ranked =>
        .results req.canonical_entity req.query_thought
          ((pyTake req.top_k ranked).map (fun p =>
            { content := p.1, score := round4 p.2,
              created_at :=
                match cands.reverse.find? (fun o => o.content == p.1) with
                | some o => o.timestamp
                | none => "" }))

/-- Example entity `A` used by the concrete test-scenario theorems. -/
def exEntityA : Entity := ⟨"A", "T", "x", "x", []⟩

/-- Example entity `B` used by the concrete test-scenario theorems. -/
def exEntityB : Entity := ⟨"B", "T", "x", "x", []⟩

/-- Example relation `A→B` of type `knows`. -/
def exRelationAB : Relation := ⟨"A", "B", "knows", "x"⟩

/-- Example graph with entities `A`, `B` and the relation `A→B`. -/
def exGraphAB : KnowledgeGraph := ⟨[exEntityA, exEntityB], [exRelationAB]⟩

/-- A graph whose single entity has an empty `created_at` string (a falsy
value for the `or`-chain of `read_graph_file`). -/
def gBadCreated : KnowledgeGraph := ⟨[⟨"A", "T", "", "X", []⟩], []⟩

/-! ### General helper lemmas -/

/-- Symmetry of boolean equality on strings. -/
theorem beq_comm_str (a b : String) : (a == b) = (b == a) := by
  cases Decidable.em (a = b) with
  | inl h => subst h; rfl
  | inr h => simp [h, Ne.symm h]

/-- The empty character list occurs in every character list. -/
theorem hasSub_nil (l : List Char) : hasSub [] l = true := by
  cases l <;> rfl

/-- The empty string is a substring of every string. -/
theorem pyInStr_empty (s : String) : pyInStr "" s = true :=
  hasSub_nil s.data

/-- Evaluating `List.mapM.loop` over a mapped list whose elements all decode
successfully. -/
theorem mapM_loop_ok {α β γ : Type} (f : β → Except String γ) (gg : α → β) (res : α → γ)
    (l : List α) (acc : List γ) (h : ∀ x ∈ l, f (gg x) = .ok (res x)) :
    List.mapM.loop f (l.map gg) acc = .ok (acc.reverse ++ l.map res) := by
  induction l generalizing acc with
  | nil => simp [List.mapM.loop]; rfl
  | cons x xs ih =>
    show (do
      let b ← f (gg x)
      List.mapM.loop f (List.map gg xs) (b :: acc)) = _
    rw [h x (by simp)]
    rw [show ((do
      let b ← Except.ok (res x)
      List.mapM.loop f (List.map gg xs) (b :: acc)) : Except String (List γ)) =
        List.mapM.loop f (List.map gg xs) (res x :: acc) from rfl]
    rw [ih _ (fun y hy => h y (by simp [hy]))]
    simp

/-- Evaluating `List.mapM` over a mapped list whose elements all decode
successfully. -/
theorem mapM_map_ok {α β γ : Type} (f : β → Except String γ) (gg : α → β) (res : α → γ)
    (l : List α) (h : ∀ x ∈ l, f (gg x) = .ok (res x)) :
    (l.map gg).mapM f = .ok (l.map res) := by
  simpa [List.mapM] using mapM_loop_ok f gg res l [] h

/-! ### Codec lemmas: decoding a saved graph -/

/-- An entity serialized by `save_graph` decodes to itself, provided its
`created_at` is nonempty (an empty string is falsy, so the `or`-chain of
`read_graph_file` would replace it). -/
theorem parseEntity_save (now : String) (e : Entity) (h : e.created_at ≠ "") :
    parseEntity now (entityToJson e) = .ok e := by
  obtain ⟨n, ty, ca, lm, obs⟩ := e
  replace h : ca ≠ "" := h
  have hobs : ∀ o ∈ obs, parseObservation (Json.str ca) (obsToJson o) = Except.ok o := by
    intro o _
    rfl
  simp [entityToJson, parseEntity, pyLookup, pyGet, pyGetD, jsonTruthy, h, pyIter,
    mapM_map_ok _ _ _ _ hobs, mapM_loop_ok _ _ _ _ _ hobs, asStr, Bind.bind, Except.bind]

/-- A relation serialized by `save_graph` decodes to itself (its
`created_at` key is always present, so no stamping occurs). -/
theorem parseRelation_save (now : String) (r : Relation) :
    parseRelation now (relationToJson r) = .ok r := rfl

/-! ### Claim C1: round trip through save and load -/

/-- Claim C1 (amended): saving a graph with `save_graph` and decoding the
resulting document with `read_graph_file` yields the graph back exactly,
provided every entity's `created_at` is a nonempty string.  (The unamended
claim, quantified over every graph, fails: an empty `created_at` is falsy
in Python and is replaced from `last_modified`; see the counterexample.) -/
theorem c1_round_trip (g : KnowledgeGraph) (now : String)
    (h : ∀ e ∈ g.entities, e.created_at ≠ "") :
    read_graph_file (.present (.json (save_graph g))) now = .ok g := by
  have hents : ∀ e ∈ g.entities, parseEntity now (entityToJson e) = Except.ok e :=
    fun e he => parseEntity_save now e (h e he)
  have hrels : ∀ r ∈ g.relations, parseRelation now (relationToJson r) = Except.ok r :=
    fun r _ => parseRelation_save now r
  simp [read_graph_file, save_graph, pyGetD, pyLookup, pyIter,
    mapM_map_ok _ _ _ _ hents, mapM_loop_ok _ _ _ _ _ hents,
    mapM_map_ok _ _ _ _ hrels, mapM_loop_ok _ _ _ _ _ hrels, Bind.bind, Except.bind]

/-- Claim C1 fails as stated: the graph `gBadCreated`, whose entity carries
`created_at = ""` and `last_modified = "X"`, does not survive the round
trip — `read_graph_file` replaces the falsy `created_at` with
`last_modified`, returning an entity with `created_at = "X"`. -/
theorem c1_counterexample :
    read_graph_file (.present (.json (save_graph gBadCreated))) "N" ≠ Except.ok gBadCreated := by
  intro hEq
  have hev : read_graph_file (.present (.json (save_graph gBadCreated))) "N" =
      Except.ok ⟨[⟨"A", "T", "X", "X", []⟩], []⟩ := rfl
  rw [hev] at hEq
  injection hEq with hEq2
  exact absurd hEq2 (by decide)

/-- Witness for C1: a concrete graph with a nonempty `created_at`, one
structured observation and one relation round-trips exactly. -/
theorem c1_round_trip_witness :
    (∀ e ∈ (⟨[⟨"A", "T", "c", "m", [⟨"o", "t"⟩]⟩], [⟨"A", "B", "knows", "r"⟩]⟩ :
        KnowledgeGraph).entities, e.created_at ≠ "") ∧
    read_graph_file (.present (.json (save_graph
        ⟨[⟨"A", "T", "c", "m", [⟨"o", "t"⟩]⟩], [⟨"A", "B", "knows", "r"⟩]⟩))) "N" =
      Except.ok ⟨[⟨"A", "T", "c", "m", [⟨"o", "t"⟩]⟩], [⟨"A", "B", "knows", "r"⟩]⟩ :=
  ⟨by decide, c1_round_trip _ "N" (by decide)⟩

/-! ### Claim C2: load never fails outward -/

/-- Claim C2 (amended): `read_graph_file` returns the empty graph when the
file is absent, when the content strips to the empty string, and when
`json.loads` rejects the content; but content that is valid JSON of an
unexpected shape escapes as an exception (only `JSONDecodeError` is
caught) — here, a top-level JSON array reaches `data.get` and raises. -/
theorem c2_load_soft_fail :
    (∀ now, read_graph_file .absent now = .ok ⟨[], []⟩)
    ∧ (∀ now, read_graph_file (.present .blank) now = .ok ⟨[], []⟩)
    ∧ (∀ now, read_graph_file (.present .invalid) now = .ok ⟨[], []⟩)
    ∧ (∃ msg, read_graph_file (.present (.json (Json.arr []))) "T" = .error msg) :=
  ⟨fun _ => rfl, fun _ => rfl, fun _ => rfl, ⟨_, rfl⟩⟩

/-- Claim C2 fails as stated: the file content `[]` (valid JSON, hence not
a `JSONDecodeError`) makes `read_graph_file` raise — `data.get` is called
on a list — so an exception escapes to the caller. -/
theorem c2_counterexample :
    read_graph_file (.present (.json (Json.arr []))) "T" =
      .error "AttributeError: value has no attribute get" := rfl

/-! ### Claim C8: load-time backfill and legacy upgrade -/

/-- Claim C8: decoding a stored entity with no `created_at` key backfills
it from a (truthy) `last_modified`, and stamps every bare-string
observation with that same creation time; with both keys missing, the
current time is used for both and for the upgraded observations; a stored
entity with `created_at` but no `last_modified` gets `last_modified = now`;
a stored relation with no `created_at` key is stamped with the current
time. -/
theorem c8_backfill_legacy_upgrade :
    (∀ (now n ty lm : String) (obsStrs : List String), lm ≠ "" →
      parseEntity now (Json.obj [("name", .str n), ("entityType", .str ty),
          ("last_modified", .str lm), ("observations", .arr (obsStrs.map Json.str))]) =
        .ok ⟨n, ty, lm, lm, obsStrs.map (fun s => ⟨s, lm⟩)⟩)
    ∧ (∀ (now n ty : String) (obsStrs : List String),
      parseEntity now (Json.obj [("name", .str n), ("entityType", .str ty),
          ("observations", .arr (obsStrs.map Json.str))]) =
        .ok ⟨n, ty, now, now, obsStrs.map (fun s => ⟨s, now⟩)⟩)
    ∧ (∀ (now n ty ca : String), ca ≠ "" →
      parseEntity now (Json.obj [("name", .str n), ("entityType", .str ty),
          ("created_at", .str ca)]) = .ok ⟨n, ty, ca, now, []⟩)
    ∧ (∀ (now f t ty : String),
      parseRelation now (Json.obj [("from", .str f), ("to", .str t),
          ("relationType", .str ty)]) = .ok ⟨f, t, ty, now⟩) := by
  refine ⟨?_, ?_, ?_, fun now f t ty => rfl⟩
  · intro now n ty lm obsStrs h
    have hobs : ∀ s ∈ obsStrs, parseObservation (Json.str lm) (Json.str s) =
        Except.ok (⟨s, lm⟩ : Observation) := fun s _ => rfl
    simp [parseEntity, pyLookup, pyGet, pyGetD, jsonTruthy, h, pyIter,
      mapM_map_ok _ _ _ _ hobs, mapM_loop_ok _ _ _ _ _ hobs, asStr, Bind.bind, Except.bind]
  · intro now n ty obsStrs
    have hobs : ∀ s ∈ obsStrs, parseObservation (Json.str now) (Json.str s) =
        Except.ok (⟨s, now⟩ : Observation) := fun s _ => rfl
    simp [parseEntity, pyLookup, pyGet, pyGetD, jsonTruthy, pyIter,
      mapM_map_ok _ _ _ _ hobs, mapM_loop_ok _ _ _ _ _ hobs, asStr, Bind.bind, Except.bind]
  · intro now n ty ca h
    simp [parseEntity, pyLookup, pyGet, pyGetD, jsonTruthy, h, pyIter,
      asStr, Bind.bind, Except.bind, List.mapM]
    rfl

/-- Witness for C8: a concrete legacy entity with two bare-string
observations and a nonempty `last_modified`, a concrete entity with only
`created_at`, and a concrete relation without `created_at`. -/
theorem c8_backfill_witness :
    ("L" : String) ≠ "" ∧
    parseEntity "N" (Json.obj [("name", .str "E"), ("entityType", .str "T"),
        ("last_modified", .str "L"), ("observations", .arr [Json.str "s1", Json.str "s2"])]) =
      .ok ⟨"E", "T", "L", "L", [⟨"s1", "L"⟩, ⟨"s2", "L"⟩]⟩ ∧
    parseEntity "N" (Json.obj [("name", .str "E"), ("entityType", .str "T"),
        ("created_at", .str "C")]) = .ok ⟨"E", "T", "C", "N", []⟩ ∧
    parseRelation "N" (Json.obj [("from", .str "A"), ("to", .str "B"),
        ("relationType", .str "k")]) = .ok ⟨"A", "B", "k", "N"⟩ :=
  ⟨by decide,
   c8_backfill_legacy_upgrade.1 "N" "E" "T" "L" ["s1", "s2"] (by decide),
   c8_backfill_legacy_upgrade.2.2.1 "N" "E" "T" "C" (by decide),
   c8_backfill_legacy_upgrade.2.2.2 "N" "A" "B" "k"⟩

/-! ### Claim C3: cascade on entity deletion -/

/-- Claim C3: after `delete_entities`, no entity with a listed name and no
relation with a listed endpoint remains, while unlisted entities and
relations with both endpoints unlisted survive (membership is preserved in
both directions, so this holds regardless of whether each listed name
existed); concretely, deleting `A` from the graph with entities `A`, `B`
and relation `A→B` of type `knows` leaves entities `[B]` and no
relations. -/
theorem c3_delete_entities_cascade :
    (∀ (g : KnowledgeGraph) (names : List String) (e : Entity),
      e ∈ (delete_entities g names).entities ↔ e ∈ g.entities ∧ ¬ e.name ∈ names)
    ∧ (∀ (g : KnowledgeGraph) (names : List String) (r : Relation),
      r ∈ (delete_entities g names).relations ↔
        r ∈ g.relations ∧ ¬ r.from_ ∈ names ∧ ¬ r.to_ ∈ names)
    ∧ delete_entities exGraphAB ["A"] = ⟨[exEntityB], []⟩ := by
  refine ⟨?_, ?_, rfl⟩
  · intro g names e
    simp [delete_entities, List.mem_filter]
  · intro g names r
    simp [delete_entities, List.mem_filter]

/-! ### Claim C7: endpoint-inclusion rules of open_nodes and search_nodes -/

/-- Claim C7: `open_nodes` keeps exactly the entities whose name was
requested, and a relation exactly when either endpoint names a found
entity (OR rule over found names); `search_nodes` keeps exactly the
entities matched by the lowercased query, and a relation only when both
endpoints name matched entities (AND rule); concretely, with `A→B` and a
query matching only `A`, `open_nodes ["A"]` keeps the relation while
`search_nodes "A"` drops it. -/
theorem c7_endpoint_rules :
    (∀ (g : KnowledgeGraph) (names : List String) (e : Entity),
      e ∈ (open_nodes g names).entities ↔ e ∈ g.entities ∧ e.name ∈ names)
    ∧ (∀ (g : KnowledgeGraph) (names : List String) (r : Relation),
      r ∈ (open_nodes g names).relations ↔ r ∈ g.relations ∧
        ((∃ e ∈ g.entities, e.name ∈ names ∧ e.name = r.from_) ∨
         (∃ e ∈ g.entities, e.name ∈ names ∧ e.name = r.to_)))
    ∧ (∀ (g : KnowledgeGraph) (q : String) (e : Entity),
      e ∈ (search_nodes g q).entities ↔ e ∈ g.entities ∧ entityMatches (pyLower q) e = true)
    ∧ (∀ (g : KnowledgeGraph) (q : String) (r : Relation),
      r ∈ (search_nodes g q).relations ↔ r ∈ g.relations ∧
        (∃ e ∈ g.entities, entityMatches (pyLower q) e = true ∧ e.name = r.from_) ∧
        (∃ e ∈ g.entities, entityMatches (pyLower q) e = true ∧ e.name = r.to_))
    ∧ open_nodes exGraphAB ["A"] = ⟨[exEntityA], [exRelationAB]⟩
    ∧ search_nodes exGraphAB "A" = ⟨[exEntityA], []⟩ := by
  refine ⟨?_, ?_, ?_, ?_, rfl, rfl⟩
  · intro g names e
    simp [open_nodes, List.mem_filter]
  · intro g names r
    simp only [open_nodes, List.mem_filter, Bool.or_eq_true, List.elem_iff, List.mem_map,
      List.mem_filter]
    constructor
    · rintro ⟨hr, h | h⟩
      · obtain ⟨e, ⟨⟨he, hn⟩, hname⟩⟩ := h
        exact ⟨hr, Or.inl ⟨e, he, by simpa using hn, hname⟩⟩
      · obtain ⟨e, ⟨⟨he, hn⟩, hname⟩⟩ := h
        exact ⟨hr, Or.inr ⟨e, he, by simpa using hn, hname⟩⟩
    · rintro ⟨hr, h | h⟩
      · obtain ⟨e, he, hn, hname⟩ := h
        exact ⟨hr, Or.inl ⟨e, ⟨⟨he, by simpa using hn⟩, hname⟩⟩⟩
      · obtain ⟨e, he, hn, hname⟩ := h
        exact ⟨hr, Or.inr ⟨e, ⟨⟨he, by simpa using hn⟩, hname⟩⟩⟩
  · intro g q e
    simp [search_nodes, List.mem_filter]
  · intro g q r
    simp only [search_nodes, List.mem_filter, Bool.and_eq_true, List.elem_iff, List.mem_map,
      List.mem_filter]
    constructor
    · rintro ⟨hr, h1, h2⟩
      obtain ⟨e1, ⟨⟨he1, hm1⟩, hn1⟩⟩ := h1
      obtain ⟨e2, ⟨⟨he2, hm2⟩, hn2⟩⟩ := h2
      exact ⟨hr, ⟨e1, he1, hm1, hn1⟩, ⟨e2, he2, hm2, hn2⟩⟩
    · rintro ⟨hr, ⟨e1, he1, hm1, hn1⟩, ⟨e2, he2, hm2, hn2⟩⟩
      exact ⟨hr, ⟨e1, ⟨⟨he1, hm1⟩, hn1⟩⟩, ⟨e2, ⟨⟨he2, hm2⟩, hn2⟩⟩⟩

/-! ### Claim C10: the empty query matches everything -/

/-- Claim C10: `search_nodes` with the empty query matches every entity
(the empty string is a substring of everything), so it returns all
entities, and exactly those relations whose two endpoints both name
existing entities. -/
theorem c10_empty_query_search (g : KnowledgeGraph) :
    (search_nodes g "").entities = g.entities ∧
    (search_nodes g "").relations = g.relations.filter
      (fun r => (g.entities.map Entity.name).contains r.from_ &&
                (g.entities.map Entity.name).contains r.to_) := by
  have hm : ∀ e ∈ g.entities, entityMatches (pyLower "") e = true := by
    intro e _
    show entityMatches "" e = true
    simp [entityMatches, pyInStr_empty]
  have hf : g.entities.filter (entityMatches (pyLower "")) = g.entities :=
    List.filter_eq_self.mpr hm
  refine ⟨hf, ?_⟩
  show g.relations.filter _ = _
  rw [hf]

/-! ### Claim C4: creation never upserts -/

theorem bind_ok_iff {α β : Type} {x : Except String α} {f : α → Except String β} {b : β} :
    (x >>= f) = .ok b ↔ ∃ a, x = .ok a ∧ f a = .ok b := by
  cases x <;> simp [Bind.bind, Except.bind]

/-- A successfully constructed entity carries exactly the string under the
item's `name` key as its name. -/
theorem entityFromItem_name {now : String} {item : List (String × Json)} {e : Entity}
    (h : entityFromItem now item = .ok e) : pyGet item "name" = Json.str e.name := by
  cases hv : pyGet item "name" <;> simp only [entityFromItem, hv, asStr] at h
  case str s =>
    obtain ⟨a, ha, h⟩ := bind_ok_iff.mp h
    obtain ⟨ty, hty, h⟩ := bind_ok_iff.mp h
    injection ha with ha2
    by_cases hck : containsKey item "observations" = true
    · rw [if_pos hck] at h
      obtain ⟨l, hl, h⟩ := bind_ok_iff.mp h
      obtain ⟨y, hy, h⟩ := bind_ok_iff.mp h
      injection h with h2
      rw [← h2, ← ha2]
    · rw [if_neg hck] at h
      obtain ⟨y, hy, h⟩ := bind_ok_iff.mp h
      injection h with h2
      rw [← h2, ← ha2]
  all_goals exact absurd h (by simp [Bind.bind, Except.bind])


/-- A successful `create_entities_loop` appends a suffix of new entities
whose names avoid `existing_names` and are mutually distinct. -/
theorem create_entities_loop_spec (now : String) (items : List (List (String × Json))) :
    ∀ (ents : List Entity) (existing : List String) (out : List Entity),
      create_entities_loop now items ents existing = .ok out →
      ∃ suf, out = ents ++ suf ∧ (∀ e ∈ suf, ¬ e.name ∈ existing) ∧
        (suf.map Entity.name).Nodup := by
  induction items with
  | nil =>
    intro ents existing out h
    injection h with h2
    exact ⟨[], by simp [h2], by simp, by simp⟩
  | cons item rest ih =>
    intro ents existing out h
    by_cases hg : (jsonTruthy (pyGet item "name") && !jsonNameMem (pyGet item "name") existing) = true
    · rw [create_entities_loop, if_pos hg] at h
      obtain ⟨e, hef, h⟩ := bind_ok_iff.mp h
      obtain ⟨suf, hout, hnot, hnd⟩ := ih _ _ _ h
      have hname := entityFromItem_name hef
      have hmem : ¬ e.name ∈ existing := by
        have hg2 := ((Bool.and_eq_true _ _).mp hg).2
        rw [hname] at hg2
        simpa [jsonNameMem, List.elem_iff] using hg2
      refine ⟨e :: suf, by simpa using hout, ?_, ?_⟩
      · intro x hx
        rcases List.mem_cons.mp hx with rfl | hx
        · exact hmem
        · intro hmemx
          exact (hnot x hx) (by simp [hmemx])
      · simp only [List.map_cons, List.nodup_cons]
        refine ⟨?_, hnd⟩
        intro hin
        obtain ⟨x, hx, hxe⟩ := List.mem_map.mp hin
        exact (hnot x hx) (by simp [hxe])
    · rw [create_entities_loop, if_neg hg] at h
      exact ih _ _ _ h

/-- When every truthy item name is a string already in `existing_names`,
`create_entities_loop` inserts nothing. -/
theorem create_entities_loop_noop (now : String) (items : List (List (String × Json))) :
    ∀ (ents : List Entity) (existing : List String),
      (∀ item ∈ items, jsonTruthy (pyGet item "name") = true →
        ∃ s, pyGet item "name" = Json.str s ∧ s ∈ existing) →
      create_entities_loop now items ents existing = .ok ents := by
  induction items with
  | nil => intro ents existing _; rfl
  | cons item rest ih =>
    intro ents existing h
    have hg : (jsonTruthy (pyGet item "name") && !jsonNameMem (pyGet item "name") existing) = false := by
      cases hjt : jsonTruthy (pyGet item "name") with
      | false => simp
      | true =>
        obtain ⟨s, hs, hmem⟩ := h item (by simp) hjt
        simp [hs, jsonNameMem, List.elem_iff, hmem]
    rw [create_entities_loop, if_neg (by simp [hg])]
    exact ih ents existing (fun it hi => h it (by simp [hi]))

/-- Stamping a falsy `created_at` does not change a relation's triple. -/
theorem tripleOf_stamp (now : String) (r : Relation) :
    tripleOf (if r.created_at == "" then { r with created_at := now } else r) = tripleOf r := by
  by_cases hca : (r.created_at == "") = true <;> simp [hca, tripleOf]

/-- `create_relations_loop` appends a suffix of relations whose triples
avoid `existing` and are mutually distinct. -/
theorem create_relations_loop_spec (now : String) (rels : List Relation) :
    ∀ (acc : List Relation) (existing : List (String × String × String)),
      ∃ suf, create_relations_loop now rels acc existing = acc ++ suf ∧
        (∀ r ∈ suf, ¬ tripleOf r ∈ existing) ∧ (suf.map tripleOf).Nodup := by
  induction rels with
  | nil => intro acc existing; exact ⟨[], by simp [create_relations_loop], by simp, by simp⟩
  | cons r rest ih =>
    intro acc existing
    by_cases hc : existing.contains (tripleOf r) = true
    · obtain ⟨suf, heq, hnot, hnd⟩ := ih acc existing
      refine ⟨suf, ?_, hnot, hnd⟩
      rw [create_relations_loop, if_pos hc]
      exact heq
    · obtain ⟨suf, heq, hnot, hnd⟩ :=
        ih (acc ++ [if r.created_at == "" then { r with created_at := now } else r])
          (existing ++ [tripleOf (if r.created_at == "" then { r with created_at := now } else r)])
      have hmem : ¬ tripleOf r ∈ existing := by
        simpa [List.elem_iff] using hc
      refine ⟨(if r.created_at == "" then { r with created_at := now } else r) :: suf, ?_, ?_, ?_⟩
      · rw [create_relations_loop, if_neg hc]
        simpa using heq
      · intro x hx
        rcases List.mem_cons.mp hx with rfl | hx
        · rw [tripleOf_stamp]
          exact hmem
        · intro hmemx
          exact (hnot x hx) (by simp [hmemx])
      · simp only [List.map_cons, List.nodup_cons]
        refine ⟨?_, hnd⟩
        intro hin
        obtain ⟨x, hx, hxe⟩ := List.mem_map.mp hin
        exact (hnot x hx) (by simp [hxe, tripleOf_stamp])
    
/-- When every requested triple is already present, `create_relations_loop`
appends nothing. -/
theorem create_relations_loop_noop (now : String) (rels : List Relation) :
    ∀ (acc : List Relation) (existing : List (String × String × String)),
      (∀ r ∈ rels, tripleOf r ∈ existing) →
      create_relations_loop now rels acc existing = acc := by
  induction rels with
  | nil => intro acc existing _; rfl
  | cons r rest ih =>
    intro acc existing h
    rw [create_relations_loop, if_pos (by simpa [List.elem_iff] using h r (by simp))]
    exact ih acc existing (fun x hx => h x (by simp [hx]))


/-- Claim C4: `create_entities` never touches existing entities (the result
is the input entities plus a suffix of new ones whose names did not occur),
preserves name uniqueness, and is a no-op when every (truthy) requested name
already exists; `create_relations` likewise appends only relations with new
triples, preserves triple uniqueness, and is a no-op when every requested
triple already exists — so creating the same entity or triple twice leaves
exactly one copy. -/
theorem c4_no_upsert :
    (∀ (g : KnowledgeGraph) (items : List (List (String × Json))) (now : String)
        (g' : KnowledgeGraph), create_entities g items now = Except.ok g' →
      g'.relations = g.relations ∧
      ∃ suf, g'.entities = g.entities ++ suf ∧
        (∀ e ∈ suf, ¬ e.name ∈ g.entities.map Entity.name) ∧
        ((g.entities.map Entity.name).Nodup → (g'.entities.map Entity.name).Nodup))
    ∧ (∀ (g : KnowledgeGraph) (rels : List Relation) (now : String),
      (create_relations g rels now).entities = g.entities ∧
      ∃ suf, (create_relations g rels now).relations = g.relations ++ suf ∧
        (∀ r ∈ suf, ¬ tripleOf r ∈ g.relations.map tripleOf) ∧
        ((g.relations.map tripleOf).Nodup →
          (((create_relations g rels now).relations).map tripleOf).Nodup))
    ∧ (∀ (g : KnowledgeGraph) (items : List (List (String × Json))) (now : String),
      (∀ item ∈ items, jsonTruthy (pyGet item "name") = true →
        ∃ s, pyGet item "name" = Json.str s ∧ s ∈ g.entities.map Entity.name) →
      create_entities g items now = Except.ok g)
    ∧ (∀ (g : KnowledgeGraph) (rels : List Relation) (now : String),
      (∀ r ∈ rels, tripleOf r ∈ g.relations.map tripleOf) →
      create_relations g rels now = g) := by
  refine ⟨?_, ?_, ?_, ?_⟩
  · intro g items now g' h
    simp only [create_entities] at h
    obtain ⟨out, hloop, hrest⟩ := bind_ok_iff.mp h
    injection hrest with hg'
    obtain ⟨suf, hout, hnot, hnd⟩ := create_entities_loop_spec now items _ _ _ hloop
    subst hg'
    refine ⟨rfl, suf, hout, hnot, ?_⟩
    intro hND
    have hents : ({ entities := out, relations := g.relations } : KnowledgeGraph).entities =
        g.entities ++ suf := hout
    rw [hents, List.map_append]
    refine hND.append hnd ?_
    intro a ha hb
    obtain ⟨x, hx, hxe⟩ := List.mem_map.mp hb
    exact (hnot x hx) (hxe ▸ ha)
  · intro g rels now
    obtain ⟨suf, heq, hnot, hnd⟩ :=
      create_relations_loop_spec now rels g.relations (g.relations.map tripleOf)
    refine ⟨rfl, suf, heq, hnot, ?_⟩
    intro hND
    have hrels : (create_relations g rels now).relations = g.relations ++ suf := heq
    rw [hrels, List.map_append]
    refine hND.append hnd ?_
    intro a ha hb
    obtain ⟨x, hx, hxe⟩ := List.mem_map.mp hb
    exact (hnot x hx) (hxe ▸ ha)
  · intro g items now h
    simp only [create_entities, create_entities_loop_noop now items g.entities _ h,
      Bind.bind, Except.bind]
  · intro g rels now h
    show ({ g with relations := create_relations_loop now rels g.relations (g.relations.map tripleOf) } : KnowledgeGraph) = g
    rw [create_relations_loop_noop now rels g.relations _ h]

/-- Witness for C4: creating a fresh entity `C` on the example graph
satisfies the suffix decomposition; re-creating the existing name `A` and
the existing triple `A→B knows` are both no-ops. -/
theorem c4_witness :
    ((⟨[exEntityA, exEntityB, ⟨"C", "General", "n", "n", []⟩], [exRelationAB]⟩ :
        KnowledgeGraph).relations = exGraphAB.relations ∧
      ∃ suf, (⟨[exEntityA, exEntityB, ⟨"C", "General", "n", "n", []⟩], [exRelationAB]⟩ :
          KnowledgeGraph).entities = exGraphAB.entities ++ suf ∧
        (∀ e ∈ suf, ¬ e.name ∈ exGraphAB.entities.map Entity.name) ∧
        ((exGraphAB.entities.map Entity.name).Nodup →
          ((⟨[exEntityA, exEntityB, ⟨"C", "General", "n", "n", []⟩], [exRelationAB]⟩ :
            KnowledgeGraph).entities.map Entity.name).Nodup))
    ∧ create_entities exGraphAB [[("name", Json.str "A")]] "n" = Except.ok exGraphAB
    ∧ create_relations exGraphAB [⟨"A", "B", "knows", "z"⟩] "n" = exGraphAB := by
  refine ⟨c4_no_upsert.1 exGraphAB [[("name", Json.str "C")]] "n" _ rfl, ?_, ?_⟩
  · refine c4_no_upsert.2.2.1 exGraphAB _ "n" ?_
    intro item hm ht
    have hit : item = [("name", Json.str "A")] := by simpa using hm
    subst hit
    exact ⟨"A", rfl, by decide⟩
  · exact c4_no_upsert.2.2.2 exGraphAB _ "n" (by decide)

/-! ### Claim C5: observation dedup -/

theorem updateFirst_no_match (p : Entity → Bool) (f : Entity → Entity) :
    ∀ l : List Entity, (∀ e ∈ l, p e = false) → updateFirst p f l = l := by
  intro l h
  induction l with
  | nil => rfl
  | cons e rest ih =>
    rw [updateFirst, if_neg (by simp [h e (by simp)])]
    rw [ih (fun x hx => h x (by simp [hx]))]

/-- A fold whose step fixes the accumulator returns the accumulator. -/
theorem foldl_fixed {α β : Type} (f : α → β → α) (a : α) :
    ∀ l : List β, (∀ x ∈ l, f a x = a) → l.foldl f a = a := by
  intro l h
  induction l with
  | nil => rfl
  | cons x xs ih =>
    rw [List.foldl_cons, h x (by simp)]
    exact ih (fun y hy => h y (by simp [hy]))

/-- `addLoop` skips a content string that is already present. -/
theorem addLoop_cons_mem (now : String) (obs : List Observation) (c' : String)
    (rest : List String) (hA : obs.any (fun o => o.content == c') = true) :
    addLoop now obs (c' :: rest) = addLoop now obs rest := by
  rw [addLoop, if_pos hA]

/-- `addLoop` appends a content string that is not yet present. -/
theorem addLoop_cons_new (now : String) (obs : List Observation) (c' : String)
    (rest : List String) (hA : ¬ obs.any (fun o => o.content == c') = true) :
    addLoop now obs (c' :: rest) =
      ((addLoop now (obs ++ [⟨c', now⟩]) rest).1, (addLoop now (obs ++ [⟨c', now⟩]) rest).2 + 1) := by
  rw [addLoop, if_neg hA]

/-- Occurrence count after `addLoop`: a content string absent before and
requested ends with exactly one occurrence; all other counts are
unchanged. -/
theorem addLoop_countP (now c : String) (cs : List String) :
    ∀ (obs : List Observation),
      ((addLoop now obs cs).1.countP (fun o => o.content == c)) =
        if obs.countP (fun o => o.content == c) = 0 ∧ c ∈ cs then 1
        else obs.countP (fun o => o.content == c) := by
  induction cs with
  | nil => intro obs; simp [addLoop]

  | cons c' rest ih =>
    intro obs
    by_cases hA : obs.any (fun o => o.content == c') = true
    · rw [addLoop_cons_mem now obs c' rest hA, ih obs]
      have hc' : obs.countP (fun o => o.content == c') ≠ 0 := by
        obtain ⟨o, ho, hoc⟩ := List.any_eq_true.mp hA
        have hpos : 0 < obs.countP (fun o => o.content == c') :=
          List.countP_pos_iff.mpr ⟨o, ho, hoc⟩
        omega
      by_cases h0 : obs.countP (fun o => o.content == c) = 0
      · have hne : ¬ c = c' := fun hcc => hc' (hcc ▸ h0)
        simp [h0, hne]
      · simp [h0]
    · rw [addLoop_cons_new now obs c' rest hA]
      show ((addLoop now (obs ++ [⟨c', now⟩]) rest).1.countP (fun o => o.content == c)) = _
      rw [ih]
      have h0' : obs.countP (fun o => o.content == c') = 0 := by
        rw [List.countP_eq_zero]
        intro o ho hoc
        exact hA (List.any_eq_true.mpr ⟨o, ho, hoc⟩)
      by_cases hc : c = c'
      · subst hc
        simp [List.countP_append, h0']
      · have hcc : ((⟨c', now⟩ : Observation).content == c) = false := by
          simp [Ne.symm hc]
        simp [List.countP_append, hcc, hc]


/-- Every observation after `addLoop` is an original one or is stamped
`now`. -/
theorem addLoop_timestamps (now : String) (cs : List String) :
    ∀ (obs : List Observation), ∀ o ∈ (addLoop now obs cs).1, o ∈ obs ∨ o.timestamp = now := by
  induction cs with
  | nil => intro obs o ho; exact Or.inl ho
  | cons c' rest ih =>
    intro obs o ho
    by_cases hA : obs.any (fun x => x.content == c') = true
    · rw [addLoop_cons_mem now obs c' rest hA] at ho
      exact ih obs o ho
    · rw [addLoop_cons_new now obs c' rest hA] at ho
      rcases ih (obs ++ [⟨c', now⟩]) o ho with hmem | hts
      · rcases List.mem_append.mp hmem with h1 | h2
        · exact Or.inl h1
        · right
          have h3 : o = (⟨c', now⟩ : Observation) := by simpa using h2
          rw [h3]
      · exact Or.inr hts

/-- `addLoop` appends something exactly when some requested content is
missing from the entity. -/
theorem addLoop_pos (now : String) (cs : List String) :
    ∀ (obs : List Observation),
      (addLoop now obs cs).2 ≠ 0 ↔ ∃ c ∈ cs, ∀ o ∈ obs, ¬ o.content = c := by
  induction cs with
  | nil => intro obs; simp [addLoop]
  | cons c' rest ih =>
    intro obs
    by_cases hA : obs.any (fun x => x.content == c') = true
    · rw [addLoop_cons_mem now obs c' rest hA, ih obs]
      constructor
      · rintro ⟨c, hc, hall⟩
        exact ⟨c, by simp [hc], hall⟩
      · rintro ⟨c, hc, hall⟩
        rcases List.mem_cons.mp hc with rfl | hc2
        · obtain ⟨o, ho, hoc⟩ := List.any_eq_true.mp hA
          exact absurd (by simpa using hoc) (hall o ho)
        · exact ⟨c, hc2, hall⟩
    · rw [addLoop_cons_new now obs c' rest hA]
      constructor
      · intro _
        refine ⟨c', by simp, ?_⟩
        intro o ho hoc
        exact hA (List.any_eq_true.mpr ⟨o, ho, by simp [hoc]⟩)
      · intro _
        simp

/-- `last_modified` is touched exactly when at least one observation was
actually appended. -/
theorem applyContents_last_modified (cs : List String) (now : String) (e : Entity) :
    (applyContents cs now e).last_modified =
      if ∃ c ∈ cs, ∀ o ∈ e.observations, ¬ o.content = c then now else e.last_modified := by
  show (if (addLoop now e.observations cs).2 > 0 then now else e.last_modified) = _
  by_cases hp : (addLoop now e.observations cs).2 = 0
  · rw [if_neg (by omega), if_neg (fun hex => (addLoop_pos now cs e.observations).mpr hex hp)]
  · rw [if_pos (by omega), if_pos ((addLoop_pos now cs e.observations).mp hp)]


/-- Claim C5: `add_observations` leaves the graph untouched when no item
names an existing entity; per entity, a requested content ends with exactly
one occurrence if it was absent (and an unchanged count otherwise, so
adding `"C"` twice yields one copy), every appended observation is stamped
`now`, and `last_modified` becomes `now` exactly when at least one content
was actually appended; a single-item call updates precisely the first
entity with the requested name. -/
theorem c5_observation_dedup :
    (∀ (g : KnowledgeGraph) (items : List ObservationItem) (now : String),
      (∀ it ∈ items, ∀ e ∈ g.entities, ¬ e.name = it.entityName) →
      add_observations g items now = g)
    ∧ (∀ (e : Entity) (cs : List String) (now c : String),
      ((applyContents cs now e).observations.countP (fun o => o.content == c)) =
        if e.observations.countP (fun o => o.content == c) = 0 ∧ c ∈ cs then 1
        else e.observations.countP (fun o => o.content == c))
    ∧ (∀ (e : Entity) (cs : List String) (now : String),
      ∀ o ∈ (applyContents cs now e).observations, o ∈ e.observations ∨ o.timestamp = now)
    ∧ (∀ (e : Entity) (cs : List String) (now : String),
      (applyContents cs now e).last_modified =
        if ∃ c ∈ cs, ∀ o ∈ e.observations, ¬ o.content = c then now else e.last_modified)
    ∧ (∀ (g : KnowledgeGraph) (it : ObservationItem) (now : String),
      (add_observations g [it] now).entities =
        updateFirst (fun e => e.name == it.entityName) (applyContents it.contents now) g.entities) := by
  refine ⟨?_, ?_, ?_, ?_, ?_⟩
  · intro g items now h
    have hstep : ∀ it ∈ items,
        updateFirst (fun e => e.name == it.entityName) (applyContents it.contents now)
          g.entities = g.entities := by
      intro it hi
      refine updateFirst_no_match _ _ _ ?_
      intro e he
      simp [h it hi e he]
    have hf := foldl_fixed
      (fun ents it => updateFirst (fun e => e.name == it.entityName)
        (applyContents it.contents now) ents) g.entities items hstep
    show KnowledgeGraph.mk (items.foldl (fun ents it => updateFirst (fun e => e.name == it.entityName) (applyContents it.contents now) ents) g.entities) g.relations = g
    rw [hf]
  · intro e cs now c
    exact addLoop_countP now c cs e.observations
  · intro e cs now o ho
    exact addLoop_timestamps now cs e.observations o ho
  · intro e cs now
    exact applyContents_last_modified cs now e
  · intro g it now
    rfl

/-- Witness for C5: an unknown name is ignored on the example graph;
adding `"C"` twice to an entity without it yields count one; the
`last_modified` rule at a concrete entity. -/
theorem c5_witness :
    add_observations exGraphAB [⟨"Z", ["c"]⟩] "n" = exGraphAB
    ∧ ((applyContents ["C", "C"] "n" ⟨"E", "T", "x", "x", []⟩).observations.countP
        (fun o => o.content == "C")) =
      (if (⟨"E", "T", "x", "x", []⟩ : Entity).observations.countP
          (fun o => o.content == "C") = 0 ∧ "C" ∈ ["C", "C"] then 1
       else (⟨"E", "T", "x", "x", []⟩ : Entity).observations.countP (fun o => o.content == "C"))
    ∧ (applyContents ["C"] "n" ⟨"E", "T", "x", "x", []⟩).last_modified =
      (if ∃ c ∈ ["C"], ∀ o ∈ (⟨"E", "T", "x", "x", []⟩ : Entity).observations, ¬ o.content = c
       then "n" else (⟨"E", "T", "x", "x", []⟩ : Entity).last_modified) :=
  ⟨c5_observation_dedup.1 exGraphAB [⟨"Z", ["c"]⟩] "n" (by decide),
   c5_observation_dedup.2.1 ⟨"E", "T", "x", "x", []⟩ ["C", "C"] "n" "C",
   c5_observation_dedup.2.2.2.1 ⟨"E", "T", "x", "x", []⟩ ["C"] "n"⟩

/-! ### Claim C6: delete_observations always touches -/

theorem anyEq_contains (x : String) (contents : List String) :
    ((contents.map Json.str).any (fun v => jsonEqStr v x)) = contents.contains x := by
  induction contents with
  | nil => rfl
  | cons c l ih =>
    show ((jsonEqStr (Json.str c) x) || _) = _
    rw [List.contains_cons]
    show ((c == x) || _) = _
    rw [ih, beq_comm_str c x]

/-- `pyContains` on a JSON array of strings is exact list membership. -/
theorem pyContains_str_list (x : String) (contents : List String) :
    pyContains (Json.arr (contents.map Json.str)) x = .ok (contents.contains x) := by
  show Except.ok ((contents.map Json.str).any (fun v => jsonEqStr v x)) = _
  rw [anyEq_contains]

/-- The deletion comprehension against a JSON array of strings keeps the
observations whose content is not listed. -/
theorem pyFilterObs_strs (contents : List String) :
    ∀ obs : List Observation,
      pyFilterObs (Json.arr (contents.map Json.str)) obs =
        .ok (obs.filter (fun o => !(contents.contains o.content))) := by
  intro obs
  induction obs with
  | nil => rfl
  | cons o rest ih =>
    show (do
      let b ← pyContains (Json.arr (contents.map Json.str)) o.content
      let r ← pyFilterObs (Json.arr (contents.map Json.str)) rest
      Except.ok (if b then r else o :: r)) = _
    rw [pyContains_str_list, ih]
    show Except.ok (if contents.contains o.content then _ else _) = _
    rw [List.filter_cons]
    by_cases hc : contents.contains o.content = true
    · simp [hc]
    · simp [hc]

/-- A fallible first-match update whose per-entity step always succeeds
agrees with the pure `updateFirst`. -/
theorem updateFirstE_ok (p : Entity → Bool) (f : Entity → Except String Entity)
    (f' : Entity → Entity) (hf : ∀ e, f e = .ok (f' e)) :
    ∀ l : List Entity, updateFirstE p f l = .ok (updateFirst p f' l) := by
  intro l
  induction l with
  | nil => rfl
  | cons e rest ih =>
    by_cases hp : p e = true
    · rw [updateFirstE, updateFirst, if_pos hp, if_pos hp]
      show (do
        let e2 ← f e
        Except.ok (e2 :: rest)) = _
      rw [hf e]
      rfl
    · rw [updateFirstE, updateFirst, if_neg hp, if_neg hp]
      show (do
        let rest2 ← updateFirstE p f rest
        Except.ok (e :: rest2)) = _
      rw [ih]
      rfl


/-- Claim C6: a single-item `delete_observations` whose item carries a
string `entityName` and a string-array `observations` removes, on the first
entity with that name, exactly the observations whose content is listed, and
unconditionally stamps `last_modified = now` on that entity — also when the
filter removes nothing (an exact-match miss still touches the entity).
Entities not satisfying the match predicate are kept unchanged by
`updateFirst`. -/
theorem c6_delete_observations_touch :
    (∀ (g : KnowledgeGraph) (item : List (String × Json)) (n : String)
        (contents : List String) (now : String),
      pyGet item "entityName" = Json.str n →
      pyGetD item "observations" (Json.arr []) = Json.arr (contents.map Json.str) →
      delete_observations g [item] now = Except.ok (KnowledgeGraph.mk
        (updateFirst (fun e => e.name == n)
          (fun e => { e with observations := e.observations.filter (fun o => !(contents.contains o.content)), last_modified := now })
          g.entities) g.relations))
    ∧ (∀ (p : Entity → Bool) (f : Entity → Entity) (l : List Entity) (e : Entity),
      e ∈ l → p e = false → e ∈ updateFirst p f l)
    ∧ (∀ (e : Entity) (contents : List String) (now : String),
      (∀ o ∈ e.observations, ¬ o.content ∈ contents) →
      ({ e with observations := e.observations.filter (fun o => !(contents.contains o.content)), last_modified := now } : Entity) =
        { e with last_modified := now }) := by
  refine ⟨?_, ?_, ?_⟩
  · intro g item n contents now hEN hObs
    have hf : ∀ e, deleteFromEntity item now e = Except.ok
        ({ e with observations := e.observations.filter (fun o => !(contents.contains o.content)), last_modified := now } : Entity) := by
      intro e
      show (do
        let obs ← pyFilterObs (pyGetD item "observations" (Json.arr [])) e.observations
        Except.ok { e with observations := obs, last_modified := now }) = _
      rw [hObs, pyFilterObs_strs]
      rfl
    have hu := updateFirstE_ok (fun e => jsonEqStr (pyGet item "entityName") e.name)
      (deleteFromEntity item now) _ hf g.entities
    have hpred : (fun e : Entity => jsonEqStr (pyGet item "entityName") e.name) =
        (fun e : Entity => e.name == n) := by
      funext e
      rw [hEN]
      show (n == e.name) = (e.name == n)
      exact beq_comm_str n e.name
    rw [hpred] at hu
    show (do
      let ents ← (do
        let s ← updateFirstE (fun e => jsonEqStr (pyGet item "entityName") e.name)
          (deleteFromEntity item now) g.entities
        List.foldlM (fun ents item => updateFirstE (fun e => jsonEqStr (pyGet item "entityName") e.name) (deleteFromEntity item now) ents) s [])
      Except.ok { g with entities := ents }) = _
    rw [hpred, hu]
    rfl
  · intro p f l e hel hpe
    induction l with
    | nil => exact absurd hel (by simp)
    | cons e' rest ih =>
      rcases List.mem_cons.mp hel with rfl | hmem
      · rw [updateFirst, if_neg (by simp [hpe])]
        exact List.mem_cons_self _ _
      · by_cases hp : p e' = true
        · rw [updateFirst, if_pos hp]
          exact List.mem_cons_of_mem _ hmem
        · rw [updateFirst, if_neg hp]
          exact List.mem_cons_of_mem _ (ih hmem)
  · intro e contents now h
    have hfil : e.observations.filter (fun o => !(contents.contains o.content)) =
        e.observations := by
      refine List.filter_eq_self.mpr ?_
      intro o ho
      simpa [List.elem_iff] using h o ho
    rw [hfil]


/-- Witness for C6: deleting `"c1"` from `A` in the example graph, and the
touch-on-miss equation at a concrete entity whose observations miss the
listed content entirely. -/
theorem c6_witness :
    delete_observations exGraphAB
        [[("entityName", Json.str "A"), ("observations", Json.arr [Json.str "c1"])]] "n" =
      Except.ok (KnowledgeGraph.mk
        (updateFirst (fun e => e.name == "A")
          (fun e => { e with observations := e.observations.filter (fun o => !((["c1"] : List String).contains o.content)), last_modified := "n" })
          exGraphAB.entities) exGraphAB.relations)
    ∧ ({ exEntityA with observations := exEntityA.observations.filter (fun o => !((["zz"] : List String).contains o.content)), last_modified := "n" } : Entity) =
        { exEntityA with last_modified := "n" } :=
  ⟨c6_delete_observations_touch.1 exGraphAB _ "A" ["c1"] "n" rfl rfl,
   c6_delete_observations_touch.2.2 exEntityA ["zz"] "n" (by decide)⟩

/-! ### Claim C9: retrieve_context soft-fail -/

theorem c9_retrieve_context_soft_fail :
    (∀ (g : KnowledgeGraph) (req : RetrieveContextRequest),
      retrieve_context none g req = .engineNotLoaded "WordLlama engine not loaded.")
    ∧ (∀ (engine : RankEngine) (g : KnowledgeGraph) (req : RetrieveContextRequest),
      candidateObs g (pyLower req.canonical_entity) = [] →
      retrieve_context (some engine) g req = .noMemories req.canonical_entity "No memories found.")
    ∧ (∀ (engine : RankEngine) (g : KnowledgeGraph) (req : RetrieveContextRequest) (msg : String),
      candidateObs g (pyLower req.canonical_entity) ≠ [] →
      engine req.query_thought
          ((candidateObs g (pyLower req.canonical_entity)).map Observation.content) =
        .error msg →
      retrieve_context (some engine) g req = .rerankFailed ("Reranking failed: " ++ msg)) := by
  refine ⟨fun g req => rfl, ?_, ?_⟩
  · intro engine g req h
    simp [retrieve_context, h]
  · intro engine g req msg h1 h2
    have hne : ((candidateObs g (pyLower req.canonical_entity)).map Observation.content).isEmpty
        = false := by
      simp [h1]
    simp [retrieve_context, hne, h2]

/-- Witness for C9: the three soft-fail shapes at concrete inputs — no
engine, an engine with no matching candidates, and an engine that raises. -/
theorem c9_witness :
    retrieve_context none exGraphAB ⟨"fact", "q", 3⟩ =
      .engineNotLoaded "WordLlama engine not loaded."
    ∧ retrieve_context (some (fun _ _ => Except.error "boom")) exGraphAB ⟨"fact", "q", 3⟩ =
      .noMemories "fact" "No memories found."
    ∧ retrieve_context (some (fun _ _ => Except.error "boom"))
        ⟨[⟨"A", "core_fact", "c", "m", [⟨"obs1", "t1"⟩]⟩], []⟩ ⟨"fact", "q", 3⟩ =
      .rerankFailed ("Reranking failed: " ++ "boom") :=
  ⟨c9_retrieve_context_soft_fail.1 exGraphAB ⟨"fact", "q", 3⟩,
   c9_retrieve_context_soft_fail.2.1 _ exGraphAB ⟨"fact", "q", 3⟩ rfl,
   c9_retrieve_context_soft_fail.2.2 _ ⟨[⟨"A", "core_fact", "c", "m", [⟨"obs1", "t1"⟩]⟩], []⟩
     ⟨"fact", "q", 3⟩ "boom" (by decide) rfl⟩

end NKG
